import Mathlib

/-
Verification of the poison (memory-corruption-detection) layer of the
umm_malloc heap allocator, as implemented in src/umm_poison.c.

The byte memory is modelled as a total function from addresses to byte
values.  The underlying block allocator (umm_malloc / umm_free /
umm_realloc / umm_init and the block table) is not part of this
repository's sources; following the specification it is treated as an
external collaborator: allocation functions are parameters, and the block
table (base address, block size, per-block link field with a reserved
free bit, chain head at index 0) is a `Heap` record modelled from the
spec.  All poison-layer functions are translated directly from the C
source, keeping their names.
-/

namespace UmmPoison

/-- Byte-addressed memory: address to byte value. -/
abbrev Mem := Nat → Nat

/-- Write a single byte `v` at address `a`. -/
def writeByte (m : Mem) (a v : Nat) : Mem :=
  fun x => if x = a then v else m x

/-- C `memset(ptr, v, n)` applied to `m`. -/
def memset (m : Mem) (ptr v n : Nat) : Mem :=
  fun x => if ptr ≤ x ∧ x < ptr + n then v else m x

/-- Store the low `len` bytes of `v` little-endian at address `a`
(the C store `*(UMM_POISONED_BLOCK_LEN_TYPE *)a = (UMM_POISONED_BLOCK_LEN_TYPE)v`,
whose cast truncates `v` modulo `256 ^ len`). -/
def storeLen (m : Mem) (a len v : Nat) : Mem :=
  fun x => if a ≤ x ∧ x < a + len then v / 256 ^ (x - a) % 256 else m x

/-- Read a `len`-byte little-endian integer at address `a`
(the C load `*(UMM_POISONED_BLOCK_LEN_TYPE *)a`). -/
def loadLen (m : Mem) (a : Nat) : Nat → Nat
  | 0 => 0
  | n + 1 => m a + 256 * loadLen m (a + 1) n

/-- POISON_BYTE from umm_poison.c. -/
def POISON_BYTE : Nat := 0xa5

/-- Build-time poison configuration: UMM_POISON_SIZE_BEFORE,
UMM_POISON_SIZE_AFTER and sizeof(UMM_POISONED_BLOCK_LEN_TYPE). -/
structure Cfg where
  sizeBefore : Nat
  lenSize : Nat
  sizeAfter : Nat

/-- poison_size from umm_poison.c: the poisoning overhead for a block of
size `s`; 0 when `s = 0`. -/
def poison_size (cfg : Cfg) (s : Nat) : Nat :=
  if s = 0 then 0 else cfg.sizeBefore + cfg.lenSize + cfg.sizeAfter

/-- Which guard region a diagnostic refers to (the C strings "before"
and "after" passed to check_poison). -/
inductive Side where
  | before
  | after
deriving DecidableEq

/-- Diagnostics produced by the poison layer: the DBGLOG_ERROR report of
check_poison ("No poison ... block at: <addr>, actual data: <bytes>"),
the DBGLOG_ERROR report of check_poison_block on a free block, and the
APP_ERROR_CHECK_BOOL(false) fatal assertion. -/
inductive LogMsg where
  | noPoison (side : Side) (addr : Nat) (bytes : List Nat)
  | freeBlockCheck (addr : Nat)
  | fatalAssert
deriving DecidableEq

/-- dump_mem from umm_poison.c: the bytes printed starting at `ptr`. -/
def dump_mem (m : Mem) (ptr len : Nat) : List Nat :=
  (List.range len).map (fun i => m (ptr + i))

/-- put_poison from umm_poison.c. -/
def put_poison (m : Mem) (ptr psize : Nat) : Mem :=
  memset m ptr POISON_BYTE psize

/-- The scan performed by the loop in check_poison: every byte in
`[ptr, ptr + psize)` equals POISON_BYTE. -/
def poisonIntact (m : Mem) (ptr psize : Nat) : Bool :=
  decide (∀ i, i < psize → m (ptr + i) = POISON_BYTE)

/-- check_poison from umm_poison.c: returns 1 when the poison is intact,
otherwise logs the side, the guard address and the actual bytes, raises
the fatal assertion, and returns 0. -/
def check_poison (m : Mem) (ptr psize : Nat) (side : Side) :
    Bool × List LogMsg :=
  if poisonIntact m ptr psize then (true, [])
  else (false, [LogMsg.noPoison side ptr (dump_mem m ptr psize),
                LogMsg.fatalAssert])

/-- Modelled from the spec: the underlying allocator's block table,
which is not part of this repository's sources.  The spec grants read
access to the block array base address, the fixed block size, the
per-block next-index/free-bit link field (`nblock i` is the link field
UMM_NBLOCK(i); the reserved bit is selected by `freeMask` and the index
part by `blocknoMask`), and the chain head anchored at block 0.
`headerSize` is the offset of a block's `body.data` inside the block. -/
structure Heap where
  base : Nat
  blockSize : Nat
  headerSize : Nat
  freeMask : Nat
  blocknoMask : Nat
  nblock : Nat → Nat

/-- Address of block `i` (the C `&UMM_BLOCK(i)`). -/
def blockAddr (h : Heap) (i : Nat) : Nat :=
  h.base + i * h.blockSize

/-- Address of block `i`'s `body.data`. -/
def dataAddr (h : Heap) (i : Nat) : Nat :=
  blockAddr h i + h.headerSize

/-- The after-guard location used by check_poison_block:
`pc + *((UMM_POISONED_BLOCK_LEN_TYPE *)pc) - UMM_POISON_SIZE_AFTER`. -/
def afterGuardAddr (cfg : Cfg) (m : Mem) (pc : Nat) : Nat :=
  pc + loadLen m pc cfg.lenSize - cfg.sizeAfter

/-- check_poison_block from umm_poison.c.  On a block whose link field
has the free bit set it only logs and keeps `ok = 1`; on a used block it
checks the before guard, then reads the length record and checks the
after guard, failing at the first bad guard. -/
def check_poison_block (cfg : Cfg) (h : Heap) (m : Mem) (i : Nat) :
    Bool × List LogMsg :=
  if h.nblock i &&& h.freeMask ≠ 0 then
    (true, [LogMsg.freeBlockCheck (blockAddr h i)])
  else
    let pc := dataAddr h i
    let rb := check_poison m (pc + cfg.lenSize) cfg.sizeBefore Side.before
    if rb.1 = false then (false, rb.2)
    else
      let ra := check_poison m (afterGuardAddr cfg m pc) cfg.sizeAfter
                  Side.after
      if ra.1 = false then (false, ra.2) else (true, [])

/-- get_poisoned from umm_poison.c: when the raw pointer is non-null and
`size_w_poison` is nonzero, writes the before guard, the after guard and
the length record (in that order) and returns the shifted user pointer;
otherwise returns the pointer unchanged with no writes. -/
def get_poisoned (cfg : Cfg) (m : Mem) (ptr : Option Nat)
    (size_w_poison : Nat) : Mem × Option Nat :=
  match ptr with
  | none => (m, none)
  | some p =>
    if size_w_poison = 0 then (m, some p)
    else
      let m1 := put_poison m (p + cfg.lenSize) cfg.sizeBefore
      let m2 := put_poison m1 (p + size_w_poison - cfg.sizeAfter)
                  cfg.sizeAfter
      let m3 := storeLen m2 p cfg.lenSize size_w_poison
      (m3, some (p + cfg.lenSize + cfg.sizeBefore))

/-- Result of get_unpoisoned: the translated raw pointer, the block
index on which check_poison_block was invoked (none when the incoming
pointer was null and no verification was attempted), and the log. -/
structure UnpoisonResult where
  ptr : Option Nat
  checked : Option Nat
  log : List LogMsg
deriving DecidableEq

/-- get_unpoisoned from umm_poison.c: for a non-null pointer, rewinds it
past the length record and before guard, computes the owning block index
by truncating division (the C result is stored in an unsigned short,
hence the reduction modulo 2^16), and invokes check_poison_block on that
block (discarding its return value). -/
def get_unpoisoned (cfg : Cfg) (h : Heap) (m : Mem) (ptr : Option Nat) :
    UnpoisonResult :=
  match ptr with
  | none => ⟨none, none, []⟩
  | some p =>
    let p2 := p - (cfg.lenSize + cfg.sizeBefore)
    let c := ((p2 - h.base) / h.blockSize) % 2 ^ 16
    ⟨some p2, some c, (check_poison_block cfg h m c).2⟩

/-- The size umm_poison_malloc passes to umm_malloc:
`size += poison_size(size)` in `w`-bit size_t arithmetic. -/
def malloc_request (cfg : Cfg) (w size : Nat) : Nat :=
  (size + poison_size cfg size) % 2 ^ w

/-- umm_poison_malloc from umm_poison.c.  `w` is the bit width of
size_t; `alloc` is the external umm_malloc, modelled as the pointer it
returns for a requested size. -/
def umm_poison_malloc (cfg : Cfg) (w : Nat) (alloc : Nat → Option Nat)
    (m : Mem) (size : Nat) : Mem × Option Nat :=
  get_poisoned cfg m (alloc (malloc_request cfg w size))
    (malloc_request cfg w size)

/-- The user size computed by umm_poison_calloc:
`size = item_size * num` in `w`-bit size_t arithmetic (no overflow
check). -/
def calloc_user_size (w num item_size : Nat) : Nat :=
  item_size * num % 2 ^ w

/-- The size umm_poison_calloc passes to umm_malloc. -/
def calloc_request (cfg : Cfg) (w num item_size : Nat) : Nat :=
  (calloc_user_size w num item_size
    + poison_size cfg (calloc_user_size w num item_size)) % 2 ^ w

/-- umm_poison_calloc from umm_poison.c: computes `item_size * num`,
adds the poison overhead, allocates, zero-fills the whole allocation
when it is non-null, then applies get_poisoned. -/
def umm_poison_calloc (cfg : Cfg) (w : Nat) (alloc : Nat → Option Nat)
    (m : Mem) (num item_size : Nat) : Mem × Option Nat :=
  match alloc (calloc_request cfg w num item_size) with
  | none => get_poisoned cfg m none (calloc_request cfg w num item_size)
  | some p =>
    get_poisoned cfg (memset m p 0 (calloc_request cfg w num item_size))
      (some p) (calloc_request cfg w num item_size)

/-- umm_poison_realloc from umm_poison.c.  `reallocFn` is the external
umm_realloc, modelled as the pointer it returns; the poison layer's own
memory writes are those of get_poisoned.  The result carries the final
memory, the returned pointer, and the UnpoisonResult of the incoming
pointer's recovery. -/
def umm_poison_realloc (cfg : Cfg) (w : Nat)
    (reallocFn : Option Nat → Nat → Option Nat) (h : Heap) (m : Mem)
    (ptr : Option Nat) (size : Nat) : Mem × Option Nat × UnpoisonResult :=
  let u := get_unpoisoned cfg h m ptr
  let r := get_poisoned cfg m (reallocFn u.ptr (malloc_request cfg w size))
             (malloc_request cfg w size)
  (r.1, r.2, u)

/-- umm_poison_free from umm_poison.c: recovers the raw pointer via
get_unpoisoned (which verifies the block when the pointer is non-null)
and hands `.ptr` to the external umm_free. -/
def umm_poison_free (cfg : Cfg) (h : Heap) (m : Mem) (ptr : Option Nat) :
    UnpoisonResult :=
  get_unpoisoned cfg h m ptr

/-- The while loop of umm_poison_check, with explicit fuel (`none` means
the fuel ran out before the chain terminated).  Faithful to the C loop:
while `UMM_NBLOCK(cur) & UMM_BLOCKNO_MASK` is nonzero, check the poison
of `cur` when its free bit is clear, breaking at the first failure, then
advance along the masked next index. -/
def checkLoop (cfg : Cfg) (h : Heap) (m : Mem) :
    Nat → Nat → Option (Bool × List LogMsg)
  | _, 0 => none
  | cur, fuel + 1 =>
    if h.nblock cur &&& h.blocknoMask = 0 then some (true, [])
    else if h.nblock cur &&& h.freeMask = 0 then
      if (check_poison_block cfg h m cur).1 = false then
        some (false, (check_poison_block cfg h m cur).2)
      else checkLoop cfg h m (h.nblock cur &&& h.blocknoMask) fuel
    else checkLoop cfg h m (h.nblock cur &&& h.blocknoMask) fuel

/-- The sequence of block indices visited (and considered for checking)
by the loop of umm_poison_check, starting at `cur`, with explicit fuel. -/
def checkTrace (h : Heap) : Nat → Nat → Option (List Nat)
  | _, 0 => none
  | cur, fuel + 1 =>
    if h.nblock cur &&& h.blocknoMask = 0 then some []
    else Option.map (fun t => cur :: t)
      (checkTrace h (h.nblock cur &&& h.blocknoMask) fuel)

/-- umm_poison_check from umm_poison.c.  The global heap state is
`Option (Heap × Mem)` (`none` models `umm_heap == NULL`); `initH, initM`
are Modelled from the spec: the state produced by the external
umm_init(), run first when the heap is uninitialized.  The walk starts
at `UMM_NBLOCK(0) & UMM_BLOCKNO_MASK`. -/
def umm_poison_check (cfg : Cfg) (initH : Heap) (initM : Mem)
    (st : Option (Heap × Mem)) (fuel : Nat) : Option (Bool × List LogMsg) :=
  match st with
  | none => checkLoop cfg initH initM (initH.nblock 0 &&& initH.blocknoMask) fuel
  | some s => checkLoop cfg s.1 s.2 (s.1.nblock 0 &&& s.1.blocknoMask) fuel

/-- A used block whose poison check fails: the predicate that makes the
loop of umm_poison_check stop with a failure. -/
def usedFails (cfg : Cfg) (h : Heap) (m : Mem) (i : Nat) : Bool :=
  decide (h.nblock i &&& h.freeMask = 0) && !(check_poison_block cfg h m i).1

/-- The set of addresses check_poison_block reads for block `i` (length
record, before guard, and the after guard located through the length
record read from `m`). -/
def blockReadAddr (cfg : Cfg) (h : Heap) (m : Mem) (i a : Nat) : Prop :=
  (dataAddr h i ≤ a ∧ a < dataAddr h i + cfg.lenSize) ∨
  (dataAddr h i + cfg.lenSize ≤ a ∧
    a < dataAddr h i + cfg.lenSize + cfg.sizeBefore) ∨
  (afterGuardAddr cfg m (dataAddr h i) ≤ a ∧
    a < afterGuardAddr cfg m (dataAddr h i) + cfg.sizeAfter)

instance decBlockReadAddr (cfg : Cfg) (h : Heap) (m : Mem) (i a : Nat) :
    Decidable (blockReadAddr cfg h m i a) := by
  unfold blockReadAddr; infer_instance

/-- An interval `[lo, hi)` lies entirely outside the window `[wlo, whi)`. -/
def outsideWindow (lo hi wlo whi : Nat) : Prop :=
  hi ≤ wlo ∨ whi ≤ lo

/-- The start address of the requested guard region of block `b`, as
reported by check_poison_block's diagnostics (before guard right after
the length record; after guard located through the length record). -/
def guardStart (cfg : Cfg) (h : Heap) (m : Mem) (b : Nat) : Side → Nat
  | Side.before => dataAddr h b + cfg.lenSize
  | Side.after => afterGuardAddr cfg m (dataAddr h b)

/-- The length of the guard region on the given side. -/
def guardLen (cfg : Cfg) : Side → Nat
  | Side.before => cfg.sizeBefore
  | Side.after => cfg.sizeAfter

instance decOutsideWindow (lo hi wlo whi : Nat) :
    Decidable (outsideWindow lo hi wlo whi) := by
  unfold outsideWindow; infer_instance

/- Concrete fixtures used by witnesses and counterexamples: the standard
poison configuration (4-byte guards, 2-byte length record), a small
block table whose chain is 0 -> 1 -> 2 with block 1 used, a table with a
free block, and simple allocator stubs. -/

/-- All-zero memory. -/
def memZ : Mem := fun _ => 0

/-- UMM_POISON_SIZE_BEFORE = 4, sizeof(UMM_POISONED_BLOCK_LEN_TYPE) = 2,
UMM_POISON_SIZE_AFTER = 4. -/
def cfg0 : Cfg := ⟨4, 2, 4⟩

/-- Block table with chain 0 -> 1 -> 2, block 1 used (free bit clear),
block size 100, data offset 4, the usual 16-bit link masks. -/
def heap0 : Heap :=
  ⟨0, 100, 4, 0x8000, 0x7fff, fun i => if i = 0 then 1 else if i = 1 then 2 else 0⟩

/-- Block table whose block 1 has the free bit set. -/
def heapF : Heap :=
  ⟨0, 8, 4, 0x8000, 0x7fff, fun i => if i = 1 then 0x8002 else 0⟩

/-- The memory of heap0 after a 16-byte poisoned chunk (user size 6) is
encoded at block 1's data address 104. -/
def mem0 : Mem := (get_poisoned cfg0 memZ (some 104) 16).1

/-- An allocator that always fails. -/
def allocNone : Nat → Option Nat := fun _ => none

/-- An allocator that always returns the raw pointer 104. -/
def allocAny : Nat → Option Nat := fun _ => some 104

/-- An allocator that returns 104 for a 16-byte request and fails
otherwise. -/
def alloc16 : Nat → Option Nat := fun n => if n = 16 then some 104 else none

/-- A reallocator that always fails. -/
def reallocNone : Option Nat → Nat → Option Nat := fun _ _ => none

/- ------------------------------------------------------------------ -/
/- Helper lemmas.                                                      -/
/- ------------------------------------------------------------------ -/

theorem List.map_congr_aux {α β : Type} {f g : α → β} :
    ∀ l : List α, (∀ x ∈ l, f x = g x) → l.map f = l.map g
  | [], _ => rfl
  | a :: t, h => by
    simp only [List.map_cons, List.cons.injEq]
    exact ⟨h a (by simp), List.map_congr_aux t fun x hx => h x (by simp [hx])⟩

theorem poisonIntact_iff (m : Mem) (ptr psize : Nat) :
    poisonIntact m ptr psize = true ↔
      ∀ i, i < psize → m (ptr + i) = POISON_BYTE := by
  simp [poisonIntact]

theorem dump_mem_congr {m1 m2 : Mem} {ptr len : Nat}
    (h : ∀ i, i < len → m1 (ptr + i) = m2 (ptr + i)) :
    dump_mem m1 ptr len = dump_mem m2 ptr len := by
  unfold dump_mem
  exact List.map_congr_aux _ fun i hi => h i (List.mem_range.mp hi)

theorem check_poison_of_intact {m : Mem} {ptr psize : Nat} (side : Side)
    (h : ∀ i, i < psize → m (ptr + i) = POISON_BYTE) :
    check_poison m ptr psize side = (true, []) := by
  unfold check_poison
  rw [if_pos ((poisonIntact_iff m ptr psize).mpr h)]

theorem check_poison_of_bad {m : Mem} {ptr psize : Nat} (side : Side)
    (i0 : Nat) (hi : i0 < psize) (hbad : m (ptr + i0) ≠ POISON_BYTE) :
    check_poison m ptr psize side =
      (false, [LogMsg.noPoison side ptr (dump_mem m ptr psize),
               LogMsg.fatalAssert]) := by
  unfold check_poison
  rw [if_neg]
  intro hok
  exact hbad ((poisonIntact_iff m ptr psize).mp hok i0 hi)

theorem check_poison_congr {m1 m2 : Mem} {ptr psize : Nat} (side : Side)
    (h : ∀ i, i < psize → m1 (ptr + i) = m2 (ptr + i)) :
    check_poison m1 ptr psize side = check_poison m2 ptr psize side := by
  unfold check_poison
  have hpi : poisonIntact m1 ptr psize = poisonIntact m2 ptr psize := by
    unfold poisonIntact
    rw [decide_eq_decide]
    constructor
    · intro hall i hi; rw [← h i hi]; exact hall i hi
    · intro hall i hi; rw [h i hi]; exact hall i hi
  rw [hpi, dump_mem_congr h]

theorem check_poison_fst_iff (m : Mem) (ptr psize : Nat) (side : Side) :
    (check_poison m ptr psize side).1 = true ↔
      ∀ i, i < psize → m (ptr + i) = POISON_BYTE := by
  unfold check_poison
  by_cases hp : poisonIntact m ptr psize = true
  · rw [if_pos hp]
    simpa using (poisonIntact_iff m ptr psize).mp hp
  · rw [if_neg hp]
    simp only [Bool.false_eq_true, false_iff]
    intro hall
    exact hp ((poisonIntact_iff m ptr psize).mpr hall)

theorem loadLen_congr {m1 m2 : Mem} {a : Nat} :
    ∀ {n : Nat}, (∀ i, i < n → m1 (a + i) = m2 (a + i)) →
      loadLen m1 a n = loadLen m2 a n := by
  intro n
  induction n generalizing a with
  | zero => intro _; rfl
  | succ k ih =>
    intro h
    unfold loadLen
    have h0 : m1 a = m2 a := by simpa using h 0 (Nat.succ_pos k)
    have hrest : ∀ i, i < k → m1 (a + 1 + i) = m2 (a + 1 + i) := by
      intro i hi
      have := h (i + 1) (Nat.succ_lt_succ hi)
      simpa [Nat.add_assoc, Nat.add_comm 1 i] using this
    rw [h0, ih hrest]

theorem storeLen_get {m : Mem} {a len v : Nat} (x : Nat) :
    storeLen m a len v x =
      if a ≤ x ∧ x < a + len then v / 256 ^ (x - a) % 256 else m x := rfl

theorem loadLen_storeLen (m : Mem) (a v : Nat) :
    ∀ len, loadLen (storeLen m a len v) a len = v % 256 ^ len := by
  intro len
  induction len generalizing m a v with
  | zero => simp [loadLen, Nat.mod_one]
  | succ k ih =>
    unfold loadLen
    have hbyte : storeLen m a (k + 1) v a = v % 256 := by
      rw [storeLen_get]
      rw [if_pos ⟨Nat.le_refl a, by omega⟩]
      simp
    have hshift :
        loadLen (storeLen m a (k + 1) v) (a + 1) k =
          loadLen (storeLen m (a + 1) k (v / 256)) (a + 1) k := by
      apply loadLen_congr
      intro i hi
      rw [storeLen_get, storeLen_get]
      rw [if_pos ⟨by omega, by omega⟩, if_pos ⟨by omega, by omega⟩]
      have h1 : a + 1 + i - a = i + 1 := by omega
      have h2 : a + 1 + i - (a + 1) = i := by omega
      rw [h1, h2, Nat.div_div_eq_div_mul, ← pow_succ']
    rw [hbyte, hshift, ih]
    have hdecomp : v % 256 ^ (k + 1) = v % 256 + 256 * (v / 256 % 256 ^ k) := by
      rw [pow_succ', Nat.mod_mul]
    omega

theorem check_poison_block_free {cfg : Cfg} {h : Heap} {m : Mem} {i : Nat}
    (hfree : h.nblock i &&& h.freeMask ≠ 0) :
    check_poison_block cfg h m i =
      (true, [LogMsg.freeBlockCheck (blockAddr h i)]) := by
  unfold check_poison_block
  rw [if_pos hfree]

theorem check_poison_block_used {cfg : Cfg} {h : Heap} {m : Mem} {i : Nat}
    (hused : h.nblock i &&& h.freeMask = 0) :
    check_poison_block cfg h m i =
      (if (check_poison m (dataAddr h i + cfg.lenSize) cfg.sizeBefore
            Side.before).1 = false then
        (false, (check_poison m (dataAddr h i + cfg.lenSize) cfg.sizeBefore
            Side.before).2)
      else if (check_poison m (afterGuardAddr cfg m (dataAddr h i))
            cfg.sizeAfter Side.after).1 = false then
        (false, (check_poison m (afterGuardAddr cfg m (dataAddr h i))
            cfg.sizeAfter Side.after).2)
      else (true, [])) := by
  unfold check_poison_block
  rw [if_neg (not_not_intro hused)]

theorem get_poisoned_snd {cfg : Cfg} {m : Mem} {p szw : Nat} (h0 : szw ≠ 0) :
    (get_poisoned cfg m (some p) szw).2 =
      some (p + cfg.lenSize + cfg.sizeBefore) := by
  simp only [get_poisoned, if_neg h0]

theorem get_poisoned_mem_eq {cfg : Cfg} {m : Mem} {p szw : Nat} (x : Nat)
    (hlay : cfg.lenSize + cfg.sizeBefore + cfg.sizeAfter ≤ szw)
    (hx : x < p ∨ p + szw ≤ x) :
    (get_poisoned cfg m (some p) szw).1 x = m x := by
  by_cases h0 : szw = 0
  · simp only [get_poisoned, if_pos h0]
  · simp only [get_poisoned, if_neg h0, put_poison, memset, storeLen]
    split_ifs with h1 h2 h3
    · exfalso; omega
    · exfalso; omega
    · exfalso; omega
    · rfl

theorem get_poisoned_before_byte {cfg : Cfg} {m : Mem} {p szw : Nat}
    (x : Nat)
    (hlay : cfg.lenSize + cfg.sizeBefore + cfg.sizeAfter ≤ szw)
    (hx1 : p + cfg.lenSize ≤ x)
    (hx2 : x < p + cfg.lenSize + cfg.sizeBefore) :
    (get_poisoned cfg m (some p) szw).1 x = POISON_BYTE := by
  have h0 : szw ≠ 0 := by omega
  simp only [get_poisoned, if_neg h0, put_poison, memset, storeLen]
  split_ifs with h1 h2 h3
  · exfalso; omega
  · exfalso; omega
  · rfl
  · exfalso; omega

theorem get_poisoned_after_byte {cfg : Cfg} {m : Mem} {p szw : Nat}
    (x : Nat)
    (hlay : cfg.lenSize + cfg.sizeBefore + cfg.sizeAfter ≤ szw)
    (hx1 : p + szw - cfg.sizeAfter ≤ x)
    (hx2 : x < p + szw) :
    (get_poisoned cfg m (some p) szw).1 x = POISON_BYTE := by
  have h0 : szw ≠ 0 := by omega
  simp only [get_poisoned, if_neg h0, put_poison, memset, storeLen]
  split_ifs with h1 h2 h3
  · exfalso; omega
  · rfl
  · exfalso; omega
  · exfalso; omega

theorem get_poisoned_loadLen {cfg : Cfg} {m : Mem} {p szw : Nat}
    (h0 : szw ≠ 0) :
    loadLen (get_poisoned cfg m (some p) szw).1 p cfg.lenSize =
      szw % 256 ^ cfg.lenSize := by
  simp only [get_poisoned, if_neg h0]
  exact loadLen_storeLen _ _ _ _

theorem check_poison_block_fresh {cfg : Cfg} {h : Heap} {m : Mem}
    {i p szw : Nat}
    (hused : h.nblock i &&& h.freeMask = 0)
    (hp : dataAddr h i = p)
    (hlay : cfg.lenSize + cfg.sizeBefore + cfg.sizeAfter ≤ szw)
    (hfit : szw < 256 ^ cfg.lenSize)
    (h0 : szw ≠ 0) :
    check_poison_block cfg h ((get_poisoned cfg m (some p) szw).1) i =
      (true, []) := by
  rw [check_poison_block_used hused, hp]
  have hrb : check_poison (get_poisoned cfg m (some p) szw).1
      (p + cfg.lenSize) cfg.sizeBefore Side.before = (true, []) :=
    check_poison_of_intact _ fun j hj =>
      get_poisoned_before_byte _ hlay (by omega) (by omega)
  have hload : loadLen (get_poisoned cfg m (some p) szw).1 p cfg.lenSize
      = szw := by
    rw [get_poisoned_loadLen h0]
    exact Nat.mod_eq_of_lt hfit
  have haddr : afterGuardAddr cfg (get_poisoned cfg m (some p) szw).1 p
      = p + szw - cfg.sizeAfter := by
    unfold afterGuardAddr
    rw [hload]
  have hra : check_poison (get_poisoned cfg m (some p) szw).1
      (afterGuardAddr cfg (get_poisoned cfg m (some p) szw).1 p)
      cfg.sizeAfter Side.after = (true, []) := by
    rw [haddr]
    exact check_poison_of_intact _ fun j hj =>
      get_poisoned_after_byte _ hlay (by omega) (by omega)
  rw [hrb, hra]
  simp

theorem check_poison_block_congr {cfg : Cfg} {h : Heap} {m1 m2 : Mem}
    {i : Nat}
    (hagree : ∀ a, blockReadAddr cfg h m2 i a → m1 a = m2 a) :
    check_poison_block cfg h m1 i = check_poison_block cfg h m2 i := by
  by_cases hfree : h.nblock i &&& h.freeMask ≠ 0
  · rw [check_poison_block_free hfree, check_poison_block_free hfree]
  · have hused : h.nblock i &&& h.freeMask = 0 := not_not.mp hfree
    rw [check_poison_block_used hused, check_poison_block_used hused]
    have hload : loadLen m1 (dataAddr h i) cfg.lenSize
        = loadLen m2 (dataAddr h i) cfg.lenSize :=
      loadLen_congr fun j hj => hagree _ (Or.inl ⟨by omega, by omega⟩)
    have haddr : afterGuardAddr cfg m1 (dataAddr h i)
        = afterGuardAddr cfg m2 (dataAddr h i) := by
      unfold afterGuardAddr
      rw [hload]
    have hbef : check_poison m1 (dataAddr h i + cfg.lenSize) cfg.sizeBefore
        Side.before =
        check_poison m2 (dataAddr h i + cfg.lenSize) cfg.sizeBefore
          Side.before :=
      check_poison_congr _ fun j hj =>
        hagree _ (Or.inr (Or.inl ⟨by omega, by omega⟩))
    have haft : check_poison m1 (afterGuardAddr cfg m1 (dataAddr h i))
        cfg.sizeAfter Side.after =
        check_poison m2 (afterGuardAddr cfg m2 (dataAddr h i)) cfg.sizeAfter
          Side.after := by
      rw [haddr]
      exact check_poison_congr _ fun j hj =>
        hagree _ (Or.inr (Or.inr ⟨by omega, by omega⟩))
    rw [hbef, haft]

theorem check_poison_block_fst_true {cfg : Cfg} {h : Heap} {m : Mem}
    {i : Nat}
    (hused : h.nblock i &&& h.freeMask = 0)
    (h1 : (check_poison_block cfg h m i).1 = true) :
    (∀ j, j < cfg.sizeBefore →
        m (dataAddr h i + cfg.lenSize + j) = POISON_BYTE) ∧
    (∀ j, j < cfg.sizeAfter →
        m (afterGuardAddr cfg m (dataAddr h i) + j) = POISON_BYTE) := by
  rw [check_poison_block_used hused] at h1
  by_cases hb : (check_poison m (dataAddr h i + cfg.lenSize) cfg.sizeBefore
      Side.before).1 = false
  · rw [if_pos hb] at h1
    simp at h1
  · rw [if_neg hb] at h1
    have hbt : (check_poison m (dataAddr h i + cfg.lenSize) cfg.sizeBefore
        Side.before).1 = true := by
      cases hc : (check_poison m (dataAddr h i + cfg.lenSize) cfg.sizeBefore
          Side.before).1
      · exact absurd hc hb
      · rfl
    by_cases ha : (check_poison m (afterGuardAddr cfg m (dataAddr h i))
        cfg.sizeAfter Side.after).1 = false
    · rw [if_pos ha] at h1
      simp at h1
    · have hat : (check_poison m (afterGuardAddr cfg m (dataAddr h i))
          cfg.sizeAfter Side.after).1 = true := by
        cases hc : (check_poison m (afterGuardAddr cfg m (dataAddr h i))
            cfg.sizeAfter Side.after).1
        · exact absurd hc ha
        · rfl
      exact ⟨(check_poison_fst_iff _ _ _ _).mp hbt,
             (check_poison_fst_iff _ _ _ _).mp hat⟩

theorem find?_eq_some_of {α : Type} (p : α → Bool) (b : α) :
    ∀ l : List α, b ∈ l → p b = true →
      (∀ x ∈ l, x ≠ b → p x = false) → l.find? p = some b := by
  intro l
  induction l with
  | nil => intro hmem; exact absurd hmem (List.not_mem_nil b)
  | cons a t ih =>
    intro hmem hpb hall
    by_cases hpa : p a = true
    · rw [List.find?_cons_of_pos _ hpa]
      by_cases hab : a = b
      · rw [hab]
      · exact absurd (hall a (List.mem_cons_self a t) hab)
          (by rw [hpa]; exact fun hc => Bool.noConfusion hc)
    · rw [List.find?_cons_of_neg _ (by simpa using hpa)]
      have hbt : b ∈ t := by
        rcases List.mem_cons.mp hmem with hba | hbt
        · exact absurd (hba ▸ hpb) hpa
        · exact hbt
      exact ih hbt hpb fun x hx => hall x (List.mem_cons_of_mem a hx)

/-- The loop of umm_poison_check, run with enough fuel to traverse the
chain, returns failure (with that block's log) at the first visited used
block whose poison check fails, and success when no visited used block
fails. -/
theorem checkLoop_eq_of_trace (cfg : Cfg) (h : Heap) (m : Mem) :
    ∀ fuel cur tr, checkTrace h cur fuel = some tr →
      checkLoop cfg h m cur fuel =
        some (match tr.find? (usedFails cfg h m) with
              | none => (true, [])
              | some i => (false, (check_poison_block cfg h m i).2)) := by
  intro fuel
  induction fuel with
  | zero => intro cur tr htr; exact absurd htr (by simp [checkTrace])
  | succ fuel ih =>
    intro cur tr htr
    simp only [checkTrace] at htr
    simp only [checkLoop]
    by_cases hz : h.nblock cur &&& h.blocknoMask = 0
    · rw [if_pos hz] at htr
      rw [if_pos hz]
      have : tr = [] := by
        injection htr with htr
        exact htr.symm
      rw [this]
      simp [List.find?]
    · rw [if_neg hz] at htr
      rw [if_neg hz]
      rcases Option.map_eq_some'.mp htr with ⟨t2, ht2, rfl⟩
      by_cases hu : h.nblock cur &&& h.freeMask = 0
      · rw [if_pos hu]
        by_cases hf : (check_poison_block cfg h m cur).1 = false
        · rw [if_pos hf]
          have hpred : usedFails cfg h m cur = true := by
            simp [usedFails, hu, hf]
          rw [List.find?_cons_of_pos _ hpred]
        · rw [if_neg hf]
          have hft : (check_poison_block cfg h m cur).1 = true := by
            cases hc : (check_poison_block cfg h m cur).1
            · exact absurd hc hf
            · rfl
          have hpred : usedFails cfg h m cur = false := by
            simp [usedFails, hft]
          rw [List.find?_cons_of_neg _ (by simp [hpred])]
          exact ih _ _ ht2
      · rw [if_neg hu]
        have hpred : usedFails cfg h m cur = false := by
          simp [usedFails, hu]
        rw [List.find?_cons_of_neg _ (by simp [hpred])]
        exact ih _ _ ht2

/- ------------------------------------------------------------------ -/
/- Claim theorems.                                                     -/
/- ------------------------------------------------------------------ -/

/-- C3 counterexample: at the concrete free block 1 of heapF,
check_poison_block logs the usage error but returns ok = 1 (success),
so the claim that the call returns a (benign) failure is false on the
code: there is no failing return value at all. -/
theorem check_poison_block_free_counterexample :
    (check_poison_block cfg0 heapF memZ 1).1 = true ∧
    (check_poison_block cfg0 heapF memZ 1).2 =
      [LogMsg.freeBlockCheck (blockAddr heapF 1)] := by
  constructor
  · decide
  · decide

/-- C3 (amended): for every block whose link field has the free bit set,
invoking check_poison_block on it is a usage error, not corruption: the
error is logged, no guard bytes are inspected, no fatal assertion is
raised, and the call returns ok = 1 (success) for that call only, so the
process continues. -/
theorem check_poison_block_on_free_benign (cfg : Cfg) (h : Heap) (m : Mem)
    (i : Nat) (hfree : h.nblock i &&& h.freeMask ≠ 0) :
    check_poison_block cfg h m i =
      (true, [LogMsg.freeBlockCheck (blockAddr h i)]) ∧
    LogMsg.fatalAssert ∉ (check_poison_block cfg h m i).2 := by
  refine ⟨check_poison_block_free hfree, ?_⟩
  rw [check_poison_block_free hfree]
  simp

/-- Witness for the amended C3 theorem at the concrete free block 1 of
heapF. -/
theorem check_poison_block_on_free_benign_witness :
    heapF.nblock 1 &&& heapF.freeMask ≠ 0 ∧
    (check_poison_block cfg0 heapF memZ 1 =
        (true, [LogMsg.freeBlockCheck (blockAddr heapF 1)]) ∧
      LogMsg.fatalAssert ∉ (check_poison_block cfg0 heapF memZ 1).2) :=
  ⟨by decide, check_poison_block_on_free_benign cfg0 heapF memZ 1 (by decide)⟩

/-- C4: umm_poison_malloc(0) adds zero poisoning overhead and returns
exactly the pointer the underlying allocator returned, with the memory
untouched (the request passed down is 0 since poison_size(0) = 0, and
get_poisoned with size 0 writes nothing); and, with the underlying
allocator's zero-size result being null, umm_poison_free on that result
performs no poison verification (no block is checked, nothing logged). -/
theorem umm_poison_malloc_zero (cfg : Cfg) (w : Nat) (h : Heap) (m : Mem)
    (alloc al2 : Nat → Option Nat) (h0 : alloc 0 = none) :
    umm_poison_malloc cfg w al2 m 0 = (m, al2 0) ∧
    umm_poison_free cfg h m (umm_poison_malloc cfg w alloc m 0).2 =
      ⟨none, none, []⟩ := by
  have hreq : malloc_request cfg w 0 = 0 := by
    simp [malloc_request, poison_size]
  constructor
  · unfold umm_poison_malloc
    rw [hreq]
    cases hc : al2 0 with
    | none => simp [get_poisoned]
    | some p => simp [get_poisoned]
  · unfold umm_poison_malloc
    rw [hreq, h0]
    simp [get_poisoned, umm_poison_free, get_unpoisoned]

/-- Witness for C4 with a failing allocator for the verification part
and an always-succeeding allocator for the pointer-identity part. -/
theorem umm_poison_malloc_zero_witness :
    allocNone 0 = none ∧
    (umm_poison_malloc cfg0 16 allocAny memZ 0 = (memZ, allocAny 0) ∧
      umm_poison_free cfg0 heap0 memZ
        (umm_poison_malloc cfg0 16 allocNone memZ 0).2 =
        ⟨none, none, []⟩) :=
  ⟨rfl, umm_poison_malloc_zero cfg0 16 heap0 memZ allocNone allocAny rfl⟩

/-- C5: for a successful allocation of user size S > 0 (with the total
fitting in size_t and in the length-record type), the length record
stored at the raw pointer equals
sizeof(length-record) + beforeGuardSize + afterGuardSize + S exactly,
and the after-guard location used by verification is
rawBlockPtr + lengthRecordValue - afterGuardSize computed from that
stored value (the model never consults the block's actual extent, so any
slack the underlying allocator reserved is irrelevant). -/
theorem length_record_exact (cfg : Cfg) (w : Nat)
    (alloc : Nat → Option Nat) (m : Mem) (S p : Nat) (hS : 0 < S)
    (hw : S + (cfg.sizeBefore + cfg.lenSize + cfg.sizeAfter) < 2 ^ w)
    (hfit : S + (cfg.sizeBefore + cfg.lenSize + cfg.sizeAfter)
            < 256 ^ cfg.lenSize)
    (hal : alloc (S + (cfg.sizeBefore + cfg.lenSize + cfg.sizeAfter))
           = some p) :
    loadLen (umm_poison_malloc cfg w alloc m S).1 p cfg.lenSize =
      cfg.lenSize + cfg.sizeBefore + cfg.sizeAfter + S ∧
    afterGuardAddr cfg (umm_poison_malloc cfg w alloc m S).1 p =
      p + (cfg.lenSize + cfg.sizeBefore + cfg.sizeAfter + S)
        - cfg.sizeAfter := by
  have h0 : S + (cfg.sizeBefore + cfg.lenSize + cfg.sizeAfter) ≠ 0 := by
    omega
  have hreq : malloc_request cfg w S =
      S + (cfg.sizeBefore + cfg.lenSize + cfg.sizeAfter) := by
    unfold malloc_request poison_size
    rw [if_neg (by omega : ¬ S = 0)]
    exact Nat.mod_eq_of_lt hw
  have hload : loadLen (umm_poison_malloc cfg w alloc m S).1 p cfg.lenSize
      = cfg.lenSize + cfg.sizeBefore + cfg.sizeAfter + S := by
    unfold umm_poison_malloc
    rw [hreq, hal, get_poisoned_loadLen h0, Nat.mod_eq_of_lt hfit]
    omega
  refine ⟨hload, ?_⟩
  unfold afterGuardAddr
  rw [hload]

/-- Witness for C5: user size 6 with cfg0 stores the length record 16
and locates the after guard at 104 + 16 - 4. -/
theorem length_record_exact_witness :
    0 < 6 ∧
    (loadLen (umm_poison_malloc cfg0 16 alloc16 memZ 6).1 104 cfg0.lenSize =
        cfg0.lenSize + cfg0.sizeBefore + cfg0.sizeAfter + 6 ∧
      afterGuardAddr cfg0 (umm_poison_malloc cfg0 16 alloc16 memZ 6).1 104 =
        104 + (cfg0.lenSize + cfg0.sizeBefore + cfg0.sizeAfter + 6)
          - cfg0.sizeAfter) :=
  ⟨by decide,
   length_record_exact cfg0 16 alloc16 memZ 6 104 (by decide) (by decide)
     (by decide) (by decide)⟩

theorem get_poisoned_payload_eq {cfg : Cfg} {m : Mem} {p szw : Nat}
    (x : Nat)
    (hx1 : p + cfg.lenSize + cfg.sizeBefore ≤ x)
    (hx2 : x < p + szw - cfg.sizeAfter) :
    (get_poisoned cfg m (some p) szw).1 x = m x := by
  have h0 : szw ≠ 0 := by omega
  simp only [get_poisoned, if_neg h0, put_poison, memset, storeLen]
  split_ifs with h1 h2 h3
  · exfalso; omega
  · exfalso; omega
  · exfalso; omega
  · rfl

/-- C6: when the underlying allocator returns null for the requested
total, umm_poison_malloc, umm_poison_calloc and umm_poison_realloc
return null unchanged, the memory is untouched (no guard bytes or
length record written), and (for a null incoming pointer) no poison
check is invoked at all. -/
theorem null_propagation (cfg : Cfg) (w : Nat) (h : Heap) (m : Mem)
    (size num item_size : Nat) (ptrIn : Option Nat)
    (alloc : Nat → Option Nat)
    (reallocFn : Option Nat → Nat → Option Nat)
    (h1 : alloc (malloc_request cfg w size) = none)
    (h2 : alloc (calloc_request cfg w num item_size) = none)
    (h3 : reallocFn (get_unpoisoned cfg h m ptrIn).ptr
            (malloc_request cfg w size) = none) :
    umm_poison_malloc cfg w alloc m size = (m, none) ∧
    umm_poison_calloc cfg w alloc m num item_size = (m, none) ∧
    (umm_poison_realloc cfg w reallocFn h m ptrIn size).1 = m ∧
    (umm_poison_realloc cfg w reallocFn h m ptrIn size).2.1 = none ∧
    (umm_poison_realloc cfg w reallocFn h m none size).2.2 =
      ⟨none, none, []⟩ := by
  refine ⟨?_, ?_, ?_, ?_, ?_⟩
  · unfold umm_poison_malloc
    rw [h1]
    rfl
  · unfold umm_poison_calloc
    rw [h2]
    rfl
  · simp only [umm_poison_realloc]
    rw [h3]
    rfl
  · simp only [umm_poison_realloc]
    rw [h3]
    rfl
  · rfl

/-- Witness for C6 with always-failing allocator and reallocator. -/
theorem null_propagation_witness :
    allocNone (malloc_request cfg0 16 7) = none ∧
    (umm_poison_malloc cfg0 16 allocNone memZ 7 = (memZ, none) ∧
      umm_poison_calloc cfg0 16 allocNone memZ 2 3 = (memZ, none) ∧
      (umm_poison_realloc cfg0 16 reallocNone heap0 memZ (some 110) 7).1 =
        memZ ∧
      (umm_poison_realloc cfg0 16 reallocNone heap0 memZ (some 110) 7).2.1 =
        none ∧
      (umm_poison_realloc cfg0 16 reallocNone heap0 memZ none 7).2.2 =
        ⟨none, none, []⟩) :=
  ⟨rfl, null_propagation cfg0 16 heap0 memZ 7 2 3 (some 110) allocNone
    reallocNone rfl rfl rfl⟩

/-- C7: in umm_poison_calloc with a non-null underlying allocation of
`total` bytes, the whole allocation is zero-filled strictly before the
guards and length record are written, so in the resulting memory both
guard regions hold the sentinel and the user payload is zero: `xb` is
any before-guard byte, `xa` any after-guard byte, `xu` any payload
byte. -/
theorem calloc_zero_fill_then_poison (cfg : Cfg) (w : Nat)
    (alloc : Nat → Option Nat) (m : Mem)
    (num item_size p total xb xa xu : Nat)
    (htot : total = calloc_user_size w num item_size
              + (cfg.sizeBefore + cfg.lenSize + cfg.sizeAfter))
    (hS : 0 < calloc_user_size w num item_size)
    (hw : total < 2 ^ w)
    (hal : alloc total = some p)
    (hxb1 : p + cfg.lenSize ≤ xb)
    (hxb2 : xb < p + cfg.lenSize + cfg.sizeBefore)
    (hxa1 : p + total - cfg.sizeAfter ≤ xa)
    (hxa2 : xa < p + total)
    (hxu1 : p + cfg.lenSize + cfg.sizeBefore ≤ xu)
    (hxu2 : xu < p + total - cfg.sizeAfter) :
    (umm_poison_calloc cfg w alloc m num item_size).1 xb = POISON_BYTE ∧
    (umm_poison_calloc cfg w alloc m num item_size).1 xa = POISON_BYTE ∧
    (umm_poison_calloc cfg w alloc m num item_size).1 xu = 0 := by
  have hlay : cfg.lenSize + cfg.sizeBefore + cfg.sizeAfter ≤ total := by
    omega
  have hreq : calloc_request cfg w num item_size = total := by
    unfold calloc_request poison_size
    rw [if_neg (by omega : ¬ calloc_user_size w num item_size = 0)]
    rw [← htot]
    exact Nat.mod_eq_of_lt hw
  have hmem : (umm_poison_calloc cfg w alloc m num item_size).1 =
      (get_poisoned cfg (memset m p 0 total) (some p) total).1 := by
    unfold umm_poison_calloc
    rw [hreq, hal]
  refine ⟨?_, ?_, ?_⟩
  · rw [hmem]
    exact get_poisoned_before_byte _ hlay hxb1 hxb2
  · rw [hmem]
    exact get_poisoned_after_byte _ hlay hxa1 hxa2
  · rw [hmem, get_poisoned_payload_eq _ hxu1 hxu2]
    simp only [memset]
    rw [if_pos ⟨by omega, by omega⟩]

/-- Witness for C7: calloc(2, 3) with cfg0 yields a 16-byte poisoned
chunk at 104; byte 106 is in the before guard, 116 in the after guard,
110 in the zeroed payload. -/
theorem calloc_zero_fill_then_poison_witness :
    0 < calloc_user_size 16 2 3 ∧
    ((umm_poison_calloc cfg0 16 alloc16 memZ 2 3).1 106 = POISON_BYTE ∧
      (umm_poison_calloc cfg0 16 alloc16 memZ 2 3).1 116 = POISON_BYTE ∧
      (umm_poison_calloc cfg0 16 alloc16 memZ 2 3).1 110 = 0) :=
  ⟨by decide,
   calloc_zero_fill_then_poison cfg0 16 alloc16 memZ 2 3 104 16 106 116 110
     (by decide) (by decide) (by decide) (by decide) (by decide) (by decide)
     (by decide) (by decide) (by decide) (by decide)⟩

/-- C8: umm_poison_calloc computes its user size as
item_size * num reduced modulo 2^w (the size_t width) with no overflow
check: for an overflowing pair the size silently wraps to a strictly
smaller value, and when the underlying allocator satisfies the wrapped
request the call returns a non-null pointer instead of reporting an
allocation failure. -/
theorem calloc_mul_overflow_wraps (cfg : Cfg) (w : Nat)
    (alloc : Nat → Option Nat) (m : Mem) (num item_size p : Nat)
    (hov : 2 ^ w ≤ item_size * num)
    (hal : alloc (calloc_request cfg w num item_size) = some p) :
    calloc_user_size w num item_size = item_size * num % 2 ^ w ∧
    calloc_user_size w num item_size < item_size * num ∧
    (umm_poison_calloc cfg w alloc m num item_size).2 ≠ none := by
  refine ⟨rfl, ?_, ?_⟩
  · have h2 : 0 < 2 ^ w := Nat.two_pow_pos w
    have hm : item_size * num % 2 ^ w < 2 ^ w := Nat.mod_lt _ h2
    unfold calloc_user_size
    omega
  · unfold umm_poison_calloc
    rw [hal]
    by_cases hz : calloc_request cfg w num item_size = 0
    · rw [hz]
      simp [get_poisoned]
    · simp [get_poisoned, hz]

/-- Witness for C8: with a 4-bit size_t, calloc(num = 3, item_size = 6)
wraps 18 to user size 2 and still returns a pointer. -/
theorem calloc_mul_overflow_wraps_witness :
    2 ^ 4 ≤ 6 * 3 ∧
    (calloc_user_size 4 3 6 = 6 * 3 % 2 ^ 4 ∧
      calloc_user_size 4 3 6 < 6 * 3 ∧
      (umm_poison_calloc cfg0 4 allocAny memZ 3 6).2 ≠ none) :=
  ⟨by decide,
   calloc_mul_overflow_wraps cfg0 4 allocAny memZ 3 6 104 (by decide)
     (by decide)⟩

/-- C10: in umm_poison_malloc the total passed to the underlying
allocator is size + poison_size(size) in w-bit size_t arithmetic with no
overflow check: for any size above SIZE_MAX minus the poison overhead
the total wraps modulo 2^w to a value strictly smaller than the
requested size, and the call proceeds to poison whatever the allocator
returned as if the wrapped total were correct. -/
theorem malloc_request_overflow_wraps (cfg : Cfg) (w : Nat)
    (alloc : Nat → Option Nat) (m : Mem) (size : Nat)
    (hsz : size < 2 ^ w)
    (hlen : 0 < cfg.lenSize)
    (hovw : cfg.sizeBefore + cfg.lenSize + cfg.sizeAfter < 2 ^ w)
    (hbig : 2 ^ w - 1 - (cfg.sizeBefore + cfg.lenSize + cfg.sizeAfter)
            < size) :
    malloc_request cfg w size =
      size + (cfg.sizeBefore + cfg.lenSize + cfg.sizeAfter) - 2 ^ w ∧
    malloc_request cfg w size < size ∧
    umm_poison_malloc cfg w alloc m size =
      get_poisoned cfg m (alloc (malloc_request cfg w size))
        (malloc_request cfg w size) := by
  have h2p : 0 < 2 ^ w := Nat.two_pow_pos w
  have hpos : 0 < size := by omega
  have hps : poison_size cfg size =
      cfg.sizeBefore + cfg.lenSize + cfg.sizeAfter := by
    unfold poison_size
    rw [if_neg (by omega : ¬ size = 0)]
  have hmr : malloc_request cfg w size =
      size + (cfg.sizeBefore + cfg.lenSize + cfg.sizeAfter) - 2 ^ w := by
    unfold malloc_request
    rw [hps, Nat.mod_eq_sub_mod (by omega)]
    exact Nat.mod_eq_of_lt (by omega)
  exact ⟨hmr, by omega, rfl⟩

/-- Witness for C10: with an 8-bit size_t and cfg0 (overhead 10), a
request of 250 wraps the total to 4. -/
theorem malloc_request_overflow_wraps_witness :
    250 < 2 ^ 8 ∧
    (malloc_request cfg0 8 250 =
        250 + (cfg0.sizeBefore + cfg0.lenSize + cfg0.sizeAfter) - 2 ^ 8 ∧
      malloc_request cfg0 8 250 < 250 ∧
      umm_poison_malloc cfg0 8 allocAny memZ 250 =
        get_poisoned cfg0 memZ (allocAny (malloc_request cfg0 8 250))
          (malloc_request cfg0 8 250)) :=
  ⟨by decide,
   malloc_request_overflow_wraps cfg0 8 allocAny memZ 250 (by decide)
     (by decide) (by decide) (by decide)⟩

/-- C9: umm_poison_check first initializes the heap when it is
uninitialized (second conjunct), and otherwise makes one sequential pass
from the chain head following next links with the free bit masked out:
with enough fuel for the chain (`checkTrace ... = some tr`), the result
is failure (with that block's diagnostics) at the first visited block
that is used and fails its poison check, and success exactly when no
visited used block fails, the walk ending at a masked next index of
zero. -/
theorem umm_poison_check_walk (cfg : Cfg) (initH : Heap) (initM : Mem)
    (h : Heap) (m : Mem) (fuel : Nat) (tr : List Nat)
    (htr : checkTrace h (h.nblock 0 &&& h.blocknoMask) fuel = some tr) :
    umm_poison_check cfg initH initM (some (h, m)) fuel =
      some (match tr.find? (usedFails cfg h m) with
            | none => (true, [])
            | some i => (false, (check_poison_block cfg h m i).2)) ∧
    umm_poison_check cfg initH initM none fuel =
      umm_poison_check cfg initH initM (some (initH, initM)) fuel :=
  ⟨checkLoop_eq_of_trace cfg h m fuel _ tr htr, rfl⟩

/-- Witness for C9 on heap0 (trace [1]) with the intact memory mem0. -/
theorem umm_poison_check_walk_witness :
    checkTrace heap0 (heap0.nblock 0 &&& heap0.blocknoMask) 40 = some [1] ∧
    (umm_poison_check cfg0 heap0 memZ (some (heap0, mem0)) 40 =
        some (match List.find? (usedFails cfg0 heap0 mem0) [1] with
              | none => (true, [])
              | some i => (false, (check_poison_block cfg0 heap0 mem0 i).2)) ∧
      umm_poison_check cfg0 heap0 memZ none 40 =
        umm_poison_check cfg0 heap0 memZ (some (heap0, memZ)) 40) :=
  ⟨by decide,
   umm_poison_check_walk cfg0 heap0 memZ heap0 mem0 40 [1] (by decide)⟩

/-- C2: for any size > 0 whose total (size plus poison overhead, fitting
in size_t and in the length-record type) is granted by the underlying
allocator with a non-null block at a used block's data address, and
whose new allocation window does not overlap the poison read regions of
the other blocks on the chain (which all pass their checks),
umm_poison_malloc followed immediately by umm_poison_check on the
resulting memory (no writes in between) succeeds. -/
theorem malloc_then_check_ok (cfg : Cfg) (initH : Heap) (initM : Mem)
    (w : Nat) (alloc : Nat → Option Nat) (h : Heap) (m : Mem)
    (size p b total fuel : Nat) (tr : List Nat)
    (htot : total = size + (cfg.sizeBefore + cfg.lenSize + cfg.sizeAfter))
    (hs : 0 < size)
    (hw : total < 2 ^ w)
    (hfit : total < 256 ^ cfg.lenSize)
    (hal : alloc total = some p)
    (hb : dataAddr h b = p)
    (hbused : h.nblock b &&& h.freeMask = 0)
    (htr : checkTrace h (h.nblock 0 &&& h.blocknoMask) fuel = some tr)
    (hothers : ∀ i ∈ tr, i ≠ b →
        (check_poison_block cfg h m i).1 = true ∧
        outsideWindow (dataAddr h i) (dataAddr h i + cfg.lenSize)
          p (p + total) ∧
        outsideWindow (dataAddr h i + cfg.lenSize)
          (dataAddr h i + cfg.lenSize + cfg.sizeBefore) p (p + total) ∧
        outsideWindow (afterGuardAddr cfg m (dataAddr h i))
          (afterGuardAddr cfg m (dataAddr h i) + cfg.sizeAfter)
          p (p + total)) :
    (umm_poison_malloc cfg w alloc m size).2 =
      some (p + cfg.lenSize + cfg.sizeBefore) ∧
    umm_poison_check cfg initH initM
      (some (h, (umm_poison_malloc cfg w alloc m size).1)) fuel =
      some (true, []) := by
  have h0 : total ≠ 0 := by omega
  have hlay : cfg.lenSize + cfg.sizeBefore + cfg.sizeAfter ≤ total := by
    omega
  have hreq : malloc_request cfg w size = total := by
    unfold malloc_request poison_size
    rw [if_neg (by omega : ¬ size = 0), ← htot]
    exact Nat.mod_eq_of_lt hw
  have hm2 : (umm_poison_malloc cfg w alloc m size).1 =
      (get_poisoned cfg m (some p) total).1 := by
    unfold umm_poison_malloc
    rw [hreq, hal]
  constructor
  · unfold umm_poison_malloc
    rw [hreq, hal]
    exact get_poisoned_snd h0
  · have hpass : ∀ i ∈ tr,
        usedFails cfg h (umm_poison_malloc cfg w alloc m size).1 i
          = false := by
      intro i hi
      by_cases hib : i = b
      · subst hib
        unfold usedFails
        rw [hm2, check_poison_block_fresh hbused hb hlay hfit h0]
        simp
      · rcases hothers i hi hib with ⟨hok, hw1, hw2, hw3⟩
        have hcongr : check_poison_block cfg h
            (umm_poison_malloc cfg w alloc m size).1 i =
            check_poison_block cfg h m i := by
          apply check_poison_block_congr
          intro x hx
          rw [hm2]
          apply get_poisoned_mem_eq x hlay
          unfold outsideWindow at hw1 hw2 hw3
          unfold blockReadAddr at hx
          rcases hx with h1 | h2 | h3
          · omega
          · omega
          · omega
        unfold usedFails
        rw [hcongr, hok]
        simp
    have hfind : tr.find?
        (usedFails cfg h (umm_poison_malloc cfg w alloc m size).1)
        = none := by
      apply List.find?_eq_none.mpr
      intro x hx
      simp [hpass x hx]
    have hloop := checkLoop_eq_of_trace cfg h
      (umm_poison_malloc cfg w alloc m size).1 fuel _ tr htr
    show checkLoop cfg h (umm_poison_malloc cfg w alloc m size).1
        (h.nblock 0 &&& h.blocknoMask) fuel = some (true, [])
    rw [hloop, hfind]

/-- Witness for C2: umm_poison_malloc(6) at block 1 of heap0 followed by
umm_poison_check succeeds. -/
theorem malloc_then_check_ok_witness :
    0 < 6 ∧
    ((umm_poison_malloc cfg0 16 alloc16 memZ 6).2 =
        some (104 + cfg0.lenSize + cfg0.sizeBefore) ∧
      umm_poison_check cfg0 heap0 memZ
        (some (heap0, (umm_poison_malloc cfg0 16 alloc16 memZ 6).1)) 40 =
        some (true, [])) :=
  ⟨by decide,
   malloc_then_check_ok cfg0 heap0 memZ 16 alloc16 heap0 memZ 6 104 1 16 40
     [1] (by decide) (by decide) (by decide) (by decide) (by decide)
     (by decide) (by decide) (by decide) (by decide)⟩

/-- C1: on a heap whose visited blocks all pass their poison checks,
overwriting exactly one byte of one guard region (side `s`) of the used
block `b` with a non-sentinel value `v` (at an address no other visited
block's check reads) makes the next umm_poison_check fail, and its
diagnostic carries the correct side and the correct start address of the
violated block's guard region. -/
theorem check_detects_guard_corruption (cfg : Cfg) (initH : Heap)
    (initM : Mem) (h : Heap) (m : Mem) (fuel b a v : Nat) (s : Side)
    (tr : List Nat)
    (htr : checkTrace h (h.nblock 0 &&& h.blocknoMask) fuel = some tr)
    (hall : ∀ i ∈ tr, (check_poison_block cfg h m i).1 = true)
    (hmem : b ∈ tr)
    (hbused : h.nblock b &&& h.freeMask = 0)
    (hlay : cfg.lenSize + cfg.sizeBefore + cfg.sizeAfter ≤
              loadLen m (dataAddr h b) cfg.lenSize)
    (ha1 : guardStart cfg h m b s ≤ a)
    (ha2 : a < guardStart cfg h m b s + guardLen cfg s)
    (hv : v ≠ POISON_BYTE)
    (hdisj : ∀ i ∈ tr, i ≠ b → ¬ blockReadAddr cfg h m i a) :
    ∃ bs, umm_poison_check cfg initH initM
        (some (h, writeByte m a v)) fuel =
      some (false, [LogMsg.noPoison s (guardStart cfg h m b s) bs,
                    LogMsg.fatalAssert]) := by
  have hm2a : writeByte m a v a = v := by simp [writeByte]
  have hm2other : ∀ x, x ≠ a → writeByte m a v x = m x := by
    intro x hx
    simp [writeByte, hx]
  have hageL : dataAddr h b + cfg.lenSize ≤ a := by
    cases s with
    | before => simpa [guardStart] using ha1
    | after =>
      have h1 := ha1
      simp only [guardStart] at h1
      unfold afterGuardAddr at h1
      omega
  have hrec : loadLen (writeByte m a v) (dataAddr h b) cfg.lenSize =
      loadLen m (dataAddr h b) cfg.lenSize := by
    apply loadLen_congr
    intro j hj
    apply hm2other
    omega
  have hblock : ∃ bs, check_poison_block cfg h (writeByte m a v) b =
      (false, [LogMsg.noPoison s (guardStart cfg h m b s) bs,
               LogMsg.fatalAssert]) := by
    cases s with
    | before =>
      refine ⟨dump_mem (writeByte m a v) (dataAddr h b + cfg.lenSize)
        cfg.sizeBefore, ?_⟩
      have ha2b : a < dataAddr h b + cfg.lenSize + cfg.sizeBefore := by
        simpa [guardStart, guardLen] using ha2
      have hfail : check_poison (writeByte m a v)
          (dataAddr h b + cfg.lenSize) cfg.sizeBefore Side.before =
          (false,
           [LogMsg.noPoison Side.before (dataAddr h b + cfg.lenSize)
             (dump_mem (writeByte m a v) (dataAddr h b + cfg.lenSize)
               cfg.sizeBefore),
            LogMsg.fatalAssert]) := by
        apply check_poison_of_bad Side.before
          (a - (dataAddr h b + cfg.lenSize))
        · omega
        · have heq : dataAddr h b + cfg.lenSize
              + (a - (dataAddr h b + cfg.lenSize)) = a := by omega
          rw [heq, hm2a]
          exact hv
      rw [check_poison_block_used hbused, hfail]
      simp [guardStart]
    | after =>
      have hbext := (check_poison_block_fst_true hbused (hall b hmem)).1
      have h1 := ha1
      have h2 := ha2
      simp only [guardStart, guardLen] at h1 h2
      have hbeyond : dataAddr h b + cfg.lenSize + cfg.sizeBefore ≤ a := by
        unfold afterGuardAddr at h1
        omega
      have hbpass : check_poison (writeByte m a v)
          (dataAddr h b + cfg.lenSize) cfg.sizeBefore Side.before =
          (true, []) := by
        apply check_poison_of_intact
        intro j hj
        rw [hm2other _ (by omega)]
        exact hbext j hj
      have haddr2 : afterGuardAddr cfg (writeByte m a v) (dataAddr h b) =
          afterGuardAddr cfg m (dataAddr h b) := by
        unfold afterGuardAddr
        rw [hrec]
      refine ⟨dump_mem (writeByte m a v)
        (afterGuardAddr cfg m (dataAddr h b)) cfg.sizeAfter, ?_⟩
      have hfail : check_poison (writeByte m a v)
          (afterGuardAddr cfg m (dataAddr h b)) cfg.sizeAfter Side.after =
          (false,
           [LogMsg.noPoison Side.after
             (afterGuardAddr cfg m (dataAddr h b))
             (dump_mem (writeByte m a v)
               (afterGuardAddr cfg m (dataAddr h b)) cfg.sizeAfter),
            LogMsg.fatalAssert]) := by
        apply check_poison_of_bad Side.after
          (a - afterGuardAddr cfg m (dataAddr h b))
        · omega
        · have heq : afterGuardAddr cfg m (dataAddr h b)
              + (a - afterGuardAddr cfg m (dataAddr h b)) = a := by omega
          rw [heq, hm2a]
          exact hv
      rw [check_poison_block_used hbused, hbpass, haddr2, hfail]
      simp [guardStart]
  rcases hblock with ⟨bs, hblock⟩
  refine ⟨bs, ?_⟩
  have hpredb : usedFails cfg h (writeByte m a v) b = true := by
    unfold usedFails
    rw [hblock]
    simp [hbused]
  have hotherspass : ∀ x ∈ tr, x ≠ b →
      usedFails cfg h (writeByte m a v) x = false := by
    intro i hi hib
    have hcongr : check_poison_block cfg h (writeByte m a v) i =
        check_poison_block cfg h m i := by
      apply check_poison_block_congr
      intro x hx
      by_cases hxa : x = a
      · exact absurd (hxa ▸ hx) (hdisj i hi hib)
      · exact hm2other x hxa
    unfold usedFails
    rw [hcongr, hall i hi]
    simp
  have hfind : tr.find? (usedFails cfg h (writeByte m a v)) = some b :=
    find?_eq_some_of _ b tr hmem hpredb hotherspass
  have hloop := checkLoop_eq_of_trace cfg h (writeByte m a v) fuel _ tr htr
  show checkLoop cfg h (writeByte m a v) (h.nblock 0 &&& h.blocknoMask)
      fuel = _
  rw [hloop, hfind]
  simp [hblock]

/-- Witness for C1: corrupting byte 107 (inside the before guard
[106, 110) of block 1) of the intact heap0/mem0 state makes
umm_poison_check fail, reporting side "before" at address 106. -/
theorem check_detects_guard_corruption_witness :
    (0 : Nat) ≠ POISON_BYTE ∧
    ∃ bs, umm_poison_check cfg0 heap0 memZ
        (some (heap0, writeByte mem0 107 0)) 40 =
      some (false, [LogMsg.noPoison Side.before
                      (guardStart cfg0 heap0 mem0 1 Side.before) bs,
                    LogMsg.fatalAssert]) :=
  ⟨by decide,
   check_detects_guard_corruption cfg0 heap0 memZ heap0 mem0 40 1 107 0
     Side.before [1] (by decide) (by decide) (by decide) (by decide)
     (by decide) (by decide) (by decide) (by decide) (by decide)⟩

end UmmPoison
